import Mathlib

/-!
Shallow embedding of the hybrid retrieval engine:
`backend/retrieval/hybrid.py`, `backend/retrieval/bm25_store.py`,
`backend/retrieval/vector_store.py` and the title lookup of
`backend/db/models.py`.

Conventions of the embedding:
* Python floats are modelled by `ℚ` (every claim here is about signs,
  order and exact arithmetic identities, not rounding).
* Python exceptions are modelled by `Except String`; code with no
  handler propagates the error, exactly as the source does.
* The two wall-clock durations measured with `time.perf_counter` are
  passed in as abstract natural numbers `tEmbed`/`tRetr` (milliseconds);
  the data flow of the metrics dictionary is kept exactly.
* External collaborators (the embedding model, `rank_bm25.BM25Okapi`,
  the FAISS index, the SQLite metadata store) are passed in as explicit
  function arguments; FAISS's documented search semantics (descending
  inner-product ranking padded with id -1) is modelled concretely.
* Python dicts are modelled by insertion-ordered association lists, and
  Python's stable `sorted(..., reverse=True)` by a stable insertion sort
  with a descending-by-score relation.
-/

/-- A scored search result: a fragment id paired with a relevance score,
mirroring the Python dicts with keys `faiss_id` and `score`. -/
structure SearchResult where
  faiss_id : Int
  score : ℚ
  deriving DecidableEq, Repr

/-- Word character in the sense of the regex class `\w` used by
`re.findall` in the title-boost step: letter, digit or underscore
(ASCII model). -/
def wordChar (c : Char) : Bool := c.isAlpha || c.isDigit || c == '_'

/-- Helper of `wordRuns`: accumulates the current (reversed) run. -/
def wordRunsAux : List Char → List Char → List (List Char)
  | [], acc => if acc.isEmpty then [] else [acc.reverse]
  | c :: cs, acc =>
    if wordChar c then wordRunsAux cs (c :: acc)
    else if acc.isEmpty then wordRunsAux cs []
    else acc.reverse :: wordRunsAux cs []

/-- Maximal runs of word characters: the model of `re.findall` applied to
the word-character class. -/
def wordRuns (s : List Char) : List (List Char) := wordRunsAux s []

/-- Keyword extraction exactly as `hybrid.py` line 62 performs it: word runs
of the query, keep those of length > 2, lowercase them. -/
def keywords (query : String) : List (List Char) :=
  ((wordRuns query.data).filter (fun w => 2 < w.length)).map
    (fun w => w.map Char.toLower)

/-- Helper of `splitWs`: accumulates the current (reversed) token. -/
def splitWsAux : List Char → List Char → List (List Char)
  | [], acc => if acc.isEmpty then [] else [acc.reverse]
  | c :: cs, acc =>
    if c.isWhitespace then
      (if acc.isEmpty then splitWsAux cs [] else acc.reverse :: splitWsAux cs [])
    else splitWsAux cs (c :: acc)

/-- Whitespace splitting, the model of Python's argument-free `str.split`. -/
def splitWs (s : List Char) : List (List Char) := splitWsAux s []

/-- Keyword extraction as the specification words it: whitespace-delimited
tokens of the query of length > 2 (lowercased for the substring test).
Kept only to compare against `keywords`, the extraction the source uses. -/
def keywordsSpec (query : String) : List (List Char) :=
  ((splitWs query.data).filter (fun w => 2 < w.length)).map
    (fun w => w.map Char.toLower)

/-- Check that `pat` occurs at the start of the second list. -/
def startsWith : List Char → List Char → Bool
  | [], _ => true
  | _ :: _, [] => false
  | a :: as, b :: bs => a == b && startsWith as bs

/-- Python-style substring containment (`pat in s`) on character lists. -/
def containsSub (pat : List Char) : List Char → Bool
  | [] => pat.isEmpty
  | c :: cs => startsWith pat (c :: cs) || containsSub pat cs

/-- `BM25Store._tokenize`: lowercase, replace parentheses and periods by
spaces, split on whitespace. -/
def tokenize (text : String) : List (List Char) :=
  splitWs ((text.data.map Char.toLower).map
    (fun c => if c == '(' || c == ')' || c == '.' then ' ' else c))

/-- Descending-by-score comparison used for ranking lists of (id, score)
pairs; with a stable sort this models both Python's
`sorted(..., reverse=True)` and the order FAISS and argsort deliver. -/
def byScore {α : Type} (a b : α × ℚ) : Prop := b.2 ≤ a.2

instance {α : Type} : DecidableRel (@byScore α) :=
  fun a b => inferInstanceAs (Decidable (b.2 ≤ a.2))

instance {α : Type} : IsTotal (α × ℚ) (@byScore α) :=
  ⟨fun a b => le_total b.2 a.2⟩

instance {α : Type} : IsTrans (α × ℚ) (@byScore α) :=
  ⟨fun _ _ _ h1 h2 => le_trans h2 h1⟩

/-- Inner product of two rational vectors: the score `IndexFlatIP` assigns. -/
def dot (u v : List ℚ) : ℚ := (List.zipWith (fun a b => a * b) u v).sum

/-- Model of `faiss.IndexFlatIP.search` for a single query: score every
stored vector by inner product, order descending, truncate to `k`, and pad
to exactly `k` entries with the sentinel id `-1` — the documented FAISS
behavior when the index holds fewer than `k` vectors. -/
def faissSearch (stored : List (List ℚ)) (q : List ℚ) (k : Nat) :
    List (Int × ℚ) :=
  let scored := stored.enum.map (fun p => ((p.1 : Int), dot q p.2))
  let ranked := (List.insertionSort byScore scored).take k
  ranked ++ List.replicate (k - ranked.length) (-1, 0)

/-- `VectorStore.search_by_vector`: run the FAISS search and skip every
`-1` padding entry (`if idx == -1: continue`). -/
def search_by_vector (stored : List (List ℚ)) (q : List ℚ) (k : Nat) :
    List SearchResult :=
  (faissSearch stored q k).filterMap
    (fun p => if p.1 == -1 then none else some ⟨p.1, p.2⟩)

/-- State of the vector store: the FAISS index (`none` before
`load_or_create`), the id counter, and the durable snapshot on disk
(`none` when no file exists). -/
structure VectorStoreState where
  index : Option (List (List ℚ))
  next_id : Nat
  disk : Option (List (List ℚ))

namespace VectorStore

/-- `VectorStore.save`: return without touching the disk when the index is
missing or holds zero vectors, otherwise write the index to disk. -/
def save (st : VectorStoreState) : VectorStoreState :=
  match st.index with
  | none => st
  | some vs => if vs.length == 0 then st else { st with disk := some vs }

end VectorStore

namespace BM25Store

/-- State of the BM25 store: the built statistical index is abstracted by
its only used capability, `get_scores` (tokenized query to one score per
corpus document); `faiss_ids` is the parallel fid list; `disk` holds the
pickled pair. -/
structure State where
  index : Option (List (List Char) → List ℚ)
  faiss_ids : List Int
  disk : Option ((Option (List (List Char) → List ℚ)) × List Int)

/-- `BM25Store.save`: pickle the current index and fid list (no guard). -/
def save (st : State) : State :=
  { st with disk := some (st.index, st.faiss_ids) }

/-- `BM25Store.build_index`: return early on an empty chunk list; otherwise
tokenize the corpus, record the fid mapping, build the index through the
external `BM25Okapi` constructor `mk`, and save. -/
def build_index (mk : List (List (List Char)) → List (List Char) → List ℚ)
    (chunks : List (String × Int)) (st : State) : State :=
  if chunks.isEmpty then st
  else
    let corpus := chunks.map (fun c => tokenize c.1)
    let fids := chunks.map (fun c => c.2)
    save { st with index := some (mk corpus), faiss_ids := fids }

/-- Top-k selection of `BM25Store.search`: argsort the score array, read it
in descending order, truncate to `top_k`. -/
def topIndices (scores : List ℚ) (k : Nat) : List (Nat × ℚ) :=
  (List.insertionSort byScore scores.enum).take k

/-- `BM25Store.search`: empty result on an unbuilt index; otherwise score
the tokenized query, take the top-k indices by descending score, and keep
only strictly positive scores, mapped to fids. -/
def search (st : State) (query : String) (top_k : Nat) : List SearchResult :=
  match st.index with
  | none => []
  | some idx =>
    let scores := idx (tokenize query)
    (topIndices scores top_k).filterMap
      (fun p => if 0 < p.2 then some ⟨st.faiss_ids.getD p.1 0, p.2⟩ else none)

end BM25Store

/-- Lookup in an insertion-ordered association list (Python dict model). -/
def dictGet (d : List (Int × ℚ)) (f : Int) : Option ℚ :=
  (d.find? (fun p => p.1 == f)).map (fun p => p.2)

/-- Update-or-append in an insertion-ordered association list: an existing
key keeps its position, a new key is appended (Python dict semantics). -/
def dictSet (d : List (Int × ℚ)) (f : Int) (v : ℚ) : List (Int × ℚ) :=
  if d.any (fun p => p.1 == f) then
    d.map (fun p => if p.1 == f then (f, v) else p)
  else d ++ [(f, v)]

/-- One RRF accumulation step of `hybrid.py` lines 52-58:
`scores[fid] = scores.get(fid, 0) + 1.0 / (k + rank)` with `k = 60`. -/
def rrfAdd (d : List (Int × ℚ)) (rank : Nat) (fid : Int) : List (Int × ℚ) :=
  dictSet d fid ((dictGet d fid).getD 0 + 1 / (60 + (rank : ℚ)))

/-- Accumulate the RRF contributions of one ranked result list, ranks
counted from `start` (`enumerate(..., start=1)` passes 1). -/
def rrfFold (d : List (Int × ℚ)) : List SearchResult → Nat → List (Int × ℚ)
  | [], _ => d
  | r :: rs, start => rrfFold (rrfAdd d start r.faiss_id) rs (start + 1)

/-- The fused score dictionary of hybrid mode: both over-fetched lists
accumulated with constant 60 and ranks from 1. -/
def rrfScores (v b : List SearchResult) : List (Int × ℚ) :=
  rrfFold (rrfFold [] v 1) b 1

/-- Fused score of one fid (0 when absent from the dictionary): the
quantity the specification's RRF properties are stated about. -/
def fusedScore (v b : List SearchResult) (f : Int) : ℚ :=
  (dictGet (rrfScores v b) f).getD 0

/-- `get_chunk_titles`: restrict the external fid-to-title relation to the
requested fids (the SQL `IN` join; an empty input yields an empty map). -/
def get_chunk_titles (fids : List Int) (tm : List (Int × String)) :
    List (Int × String) :=
  tm.filter (fun p => fids.contains p.1)

/-- `titles_map.get(fid, "")` of the boosting loop. -/
def titleLookup (m : List (Int × String)) (f : Int) : String :=
  ((m.find? (fun p => p.1 == f)).map (fun p => p.2)).getD ""

/-- The boosting test applied to one fid: some extracted keyword occurs as
a substring of the lowercased title fetched for the fused candidate set. -/
def boostCond (query : String) (tm : List (Int × String)) (fids : List Int)
    (f : Int) : Bool :=
  (keywords query).any (fun kw =>
    containsSub kw ((titleLookup (get_chunk_titles fids tm) f).data.map
      Char.toLower))

/-- Step 3 of hybrid mode (`hybrid.py` lines 60-70): when the score
dictionary is non-empty, multiply by 3 the score of every fid whose title
matches some query keyword. -/
def titleBoost (query : String) (tm : List (Int × String))
    (scores : List (Int × ℚ)) : List (Int × ℚ) :=
  if scores.isEmpty then scores
  else scores.map (fun p =>
    if boostCond query tm (scores.map Prod.fst) p.1 then (p.1, p.2 * 3) else p)

/-- The hybrid (else) branch after both fetches: RRF fusion, title boost,
stable descending sort, truncation to `top_k`. -/
def hybridFuse (query : String) (tm : List (Int × String))
    (v b : List SearchResult) (top_k : Nat) : List SearchResult :=
  ((List.insertionSort byScore (titleBoost query tm (rrfScores v b))).take
    top_k).map (fun p => ⟨p.1, p.2⟩)

/-- Return value of `hybrid_search`: the ranked results plus the metrics
dictionary (integer milliseconds). -/
structure HybridOutput where
  results : List SearchResult
  embed_ms : Nat
  retrieval_ms : Nat
  deriving DecidableEq, Repr

/-- `hybrid_search`, with the module-level collaborators (embedder, vector
search, bm25 search, title metadata) passed explicitly. Step 1 computes the
query vector only for the modes `vector` and `hybrid`, leaving `None`
(here `none`) otherwise, and only then sets `embed_ms`; step 2 dispatches
on the mode string, every other string falling through to the hybrid
branch, which hands the possibly-`None` vector to the vector search. -/
def hybrid_search
    (embed : String → Except String (List ℚ))
    (vsearch : Option (List ℚ) → Nat → Except String (List SearchResult))
    (bsearch : String → Nat → Except String (List SearchResult))
    (tm : List (Int × String))
    (tEmbed tRetr : Nat)
    (query : String) (top_k : Nat) (search_mode : String) :
    Except String HybridOutput := do
  let step1 : Option (List ℚ) × Nat ←
    if search_mode == "vector" || search_mode == "hybrid" then do
      let v ← embed query
      pure (some v, tEmbed)
    else pure (none, 0)
  let query_vector := step1.1
  let embed_ms := step1.2
  if search_mode == "vector" then do
    let r ← vsearch query_vector top_k
    pure (HybridOutput.mk r embed_ms tRetr)
  else if search_mode == "bm25" then do
    let r ← bsearch query top_k
    pure (HybridOutput.mk r embed_ms tRetr)
  else do
    let v_results ← vsearch query_vector (top_k * 10)
    let b_results ← bsearch query (top_k * 10)
    pure (HybridOutput.mk (hybridFuse query tm v_results b_results top_k)
      embed_ms tRetr)

/-- `vector_store.search_by_vector` as invoked from `hybrid_search`: a
`None` query vector raises before any index access (the attribute access
`query_vector.ndim` on `None`), modelled by the `none` case. -/
def vsearchReal (stored : List (List ℚ)) :
    Option (List ℚ) → Nat → Except String (List SearchResult)
  | none, _ => .error "AttributeError: NoneType object has no attribute ndim"
  | some q, k => .ok (search_by_vector stored q k)

/-- `bm25_store.search` as invoked from `hybrid_search`: never raises. -/
def bsearchReal (st : BM25Store.State) :
    String → Nat → Except String (List SearchResult) :=
  fun q k => .ok (BM25Store.search st q k)

/-- Spec-side closed form of one list's RRF contribution to a fid: the sum
over its occurrences of `1 / (60 + rank)`, ranks counted from `r0`. -/
def contribAux (f : Int) : List SearchResult → Nat → ℚ
  | [], _ => 0
  | x :: xs, r0 =>
    (if x.faiss_id = f then 1 / (60 + (r0 : ℚ)) else 0) + contribAux f xs (r0 + 1)

/-! Dictionary lemmas: reading back an insertion-ordered association list
after an update. -/

theorem dictGet_cons (p : Int × ℚ) (ps : List (Int × ℚ)) (g : Int) :
    dictGet (p :: ps) g = if p.1 = g then some p.2 else dictGet ps g := by
  unfold dictGet
  by_cases h : p.1 = g
  · rw [List.find?_cons_of_pos _ (by simp [h]), if_pos h]
    rfl
  · rw [List.find?_cons_of_neg _ (by simp [h]), if_neg h]

theorem find?_map_keyUpd (g f : Int) (v : ℚ) (h : g ≠ f) :
    ∀ ps : List (Int × ℚ),
      (ps.map (fun q => if q.1 == f then (f, v) else q)).find? (fun q => q.1 == g)
        = ps.find? (fun q => q.1 == g)
  | [] => rfl
  | q :: qs => by
    rw [List.map_cons]
    by_cases hqf : q.1 = f
    · rw [if_pos (show (q.1 == f) = true by simp [hqf])]
      rw [@List.find?_cons_of_neg _ (fun q => q.1 == g) (f, v) _
        (show ¬(((f, v).1 == g) = true) by simp; exact fun hh => h hh.symm)]
      rw [@List.find?_cons_of_neg _ (fun q => q.1 == g) q qs
        (show ¬((q.1 == g) = true) by simp [hqf]; exact fun hh => h hh.symm)]
      exact find?_map_keyUpd g f v h qs
    · rw [if_neg (show ¬((q.1 == f) = true) by simp [hqf])]
      by_cases hqg : (q.1 == g) = true
      · rw [@List.find?_cons_of_pos _ (fun q => q.1 == g) q _ hqg,
          @List.find?_cons_of_pos _ (fun q => q.1 == g) q qs hqg]
      · rw [@List.find?_cons_of_neg _ (fun q => q.1 == g) q _ hqg,
          @List.find?_cons_of_neg _ (fun q => q.1 == g) q qs hqg]
        exact find?_map_keyUpd g f v h qs

theorem dictSet_cons_ne (p : Int × ℚ) (ps : List (Int × ℚ)) (f : Int) (v : ℚ)
    (h : p.1 ≠ f) : dictSet (p :: ps) f v = p :: dictSet ps f v := by
  by_cases hany : ps.any (fun q => q.1 == f) <;>
    simp [dictSet, hany, h]

theorem dictGet_dictSet (d : List (Int × ℚ)) (f g : Int) (v : ℚ) :
    dictGet (dictSet d f v) g = if g = f then some v else dictGet d g := by
  induction d with
  | nil =>
    have hset : dictSet [] f v = [(f, v)] := by simp [dictSet]
    rw [hset, dictGet_cons]
    by_cases h : g = f
    · rw [if_pos (show (f, v).1 = g from h.symm), if_pos h]
    · rw [if_neg (show ¬(f, v).1 = g from fun hh => h hh.symm), if_neg h]
  | cons p ps ih =>
    by_cases hpf : p.1 = f
    · have hany : ((p :: ps).any (fun q => q.1 == f)) = true := by
        simp [List.any_cons, hpf]
      have hset : dictSet (p :: ps) f v
          = (f, v) :: ps.map (fun q => if q.1 == f then (f, v) else q) := by
        unfold dictSet
        rw [if_pos hany, List.map_cons,
          if_pos (show (p.1 == f) = true by simp [hpf])]
      rw [hset, dictGet_cons]
      by_cases hgf : g = f
      · rw [if_pos (show (f, v).1 = g from hgf.symm), if_pos hgf]
      · rw [if_neg (show ¬(f, v).1 = g from fun hh => hgf hh.symm), if_neg hgf]
        have h1 : dictGet (ps.map (fun q => if q.1 == f then (f, v) else q)) g
            = dictGet ps g := by
          unfold dictGet
          rw [find?_map_keyUpd g f v hgf ps]
        rw [h1, dictGet_cons, if_neg (fun hh : p.1 = g => hgf (hh ▸ hpf))]
    · rw [dictSet_cons_ne p ps f v hpf, dictGet_cons, dictGet_cons, ih]
      by_cases hpg : p.1 = g <;> by_cases hgf : g = f
      · exact absurd (hpg.trans hgf) hpf
      · rw [if_pos hpg, if_neg hgf, if_pos hpg]
      · rw [if_neg hpg, if_pos hgf, if_pos hgf]
      · rw [if_neg hpg, if_neg hgf, if_neg hgf, if_neg hpg]

theorem rrfAdd_get (d : List (Int × ℚ)) (r : Nat) (gid f : Int) :
    (dictGet (rrfAdd d r gid) f).getD 0
      = (dictGet d f).getD 0 + (if gid = f then 1 / (60 + (r : ℚ)) else 0) := by
  unfold rrfAdd
  rw [dictGet_dictSet]
  by_cases h : f = gid
  · subst h; simp
  · have h' : gid ≠ f := fun hh => h hh.symm
    simp [h, h']

theorem rrfFold_get (f : Int) (l : List SearchResult) :
    ∀ (d : List (Int × ℚ)) (s : Nat),
      (dictGet (rrfFold d l s) f).getD 0
        = (dictGet d f).getD 0 + contribAux f l s := by
  induction l with
  | nil => intro d s; simp [rrfFold, contribAux]
  | cons x xs ih =>
    intro d s
    rw [rrfFold, ih, rrfAdd_get, contribAux]
    ring

theorem fusedScore_eq_contrib (v b : List SearchResult) (f : Int) :
    fusedScore v b f = contribAux f v 1 + contribAux f b 1 := by
  unfold fusedScore rrfScores
  rw [rrfFold_get, rrfFold_get]
  simp [dictGet]

theorem contribAux_of_not_mem (f : Int) (l : List SearchResult)
    (h : ∀ x ∈ l, x.faiss_id ≠ f) : ∀ s, contribAux f l s = 0 := by
  induction l with
  | nil => intro s; rfl
  | cons x xs ih =>
    intro s
    rw [contribAux, if_neg (h x (List.mem_cons_self x xs)),
      ih (fun y hy => h y (List.mem_cons_of_mem x hy)) (s + 1)]
    ring

theorem contribAux_le (f : Int) (l : List SearchResult)
    (h : (l.map (fun r => r.faiss_id)).Nodup) :
    ∀ s : Nat, contribAux f l s ≤ 1 / (60 + (s : ℚ)) := by
  induction l with
  | nil =>
    intro s
    rw [contribAux]
    positivity
  | cons x xs ih =>
    intro s
    rw [List.map_cons, List.nodup_cons] at h
    obtain ⟨hx, hxs⟩ := h
    rw [contribAux]
    by_cases hf : x.faiss_id = f
    · rw [if_pos hf]
      have h0 : contribAux f xs (s + 1) = 0 := by
        apply contribAux_of_not_mem
        intro y hy hyf
        exact hx (hf ▸ hyf ▸ List.mem_map_of_mem (fun r => r.faiss_id) hy)
      rw [h0]
      simp
    · rw [if_neg hf]
      have h1 := ih hxs (s + 1)
      have h2 : (1 : ℚ) / (60 + ((s + 1 : Nat) : ℚ)) ≤ 1 / (60 + (s : ℚ)) := by
        apply one_div_le_one_div_of_le
        · positivity
        · push_cast; linarith
      simp only [zero_add]
      exact le_trans h1 h2

theorem contribAux_cons_self (f : Int) (x : SearchResult)
    (xs : List SearchResult) (hx : x.faiss_id = f)
    (hnot : ∀ y ∈ xs, y.faiss_id ≠ f) (s : Nat) :
    contribAux f (x :: xs) s = 1 / (60 + (s : ℚ)) := by
  rw [contribAux, if_pos hx, contribAux_of_not_mem f xs hnot]
  ring

/-- C6: a fid ranked first in both input lists of the RRF fusion (with
constant 60 and ranks from 1) receives fused score exactly 2/61, and no
fid at all — in particular none appearing in the two lists — receives a
larger fused score. -/
theorem rrf_first_in_both_max (v b : List SearchResult) (f : Int)
    (x y : SearchResult) (xs ys : List SearchResult)
    (hv : v = x :: xs) (hb : b = y :: ys)
    (hxf : x.faiss_id = f) (hyf : y.faiss_id = f)
    (hnv : (v.map (fun r => r.faiss_id)).Nodup)
    (hnb : (b.map (fun r => r.faiss_id)).Nodup) :
    fusedScore v b f = 2 / 61 ∧ ∀ g : Int, fusedScore v b g ≤ 2 / 61 := by
  subst hv hb
  constructor
  · rw [fusedScore_eq_contrib]
    rw [List.map_cons, List.nodup_cons] at hnv hnb
    rw [contribAux_cons_self f x xs hxf
      (fun z hz hzf => hnv.1 (hxf ▸ hzf ▸ List.mem_map_of_mem (fun r => r.faiss_id) hz)) 1]
    rw [contribAux_cons_self f y ys hyf
      (fun z hz hzf => hnb.1 (hyf ▸ hzf ▸ List.mem_map_of_mem (fun r => r.faiss_id) hz)) 1]
    norm_num
  · intro g
    rw [fusedScore_eq_contrib]
    have h1 := contribAux_le g (x :: xs) hnv 1
    have h2 := contribAux_le g (y :: ys) hnb 1
    have hc : ((1 : Nat) : ℚ) = 1 := by norm_num
    rw [hc] at h1 h2
    norm_num at h1 h2 ⊢
    linarith

theorem rrf_first_in_both_max_witness :
    fusedScore [⟨5, 9⟩, ⟨3, 7⟩] [⟨5, 4⟩, ⟨7, 2⟩] 5 = 2 / 61 ∧
    fusedScore [⟨5, 9⟩, ⟨3, 7⟩] [⟨5, 4⟩, ⟨7, 2⟩] 3 ≤ 2 / 61 :=
  ⟨(rrf_first_in_both_max [⟨5, 9⟩, ⟨3, 7⟩] [⟨5, 4⟩, ⟨7, 2⟩] 5 ⟨5, 9⟩ ⟨5, 4⟩
      [⟨3, 7⟩] [⟨7, 2⟩] rfl rfl rfl rfl (by decide) (by decide)).1,
   (rrf_first_in_both_max [⟨5, 9⟩, ⟨3, 7⟩] [⟨5, 4⟩, ⟨7, 2⟩] 5 ⟨5, 9⟩ ⟨5, 4⟩
      [⟨3, 7⟩] [⟨7, 2⟩] rfl rfl rfl rfl (by decide) (by decide)).2 3⟩

/-! Ranking lemmas shared by the vector search and the hybrid fusion. -/

theorem filterMap_keep (l : List (Int × ℚ)) (h : ∀ p ∈ l, p.1 ≠ -1) :
    l.filterMap (fun p => if p.1 == -1 then none else some (SearchResult.mk p.1 p.2))
      = l.map (fun p => SearchResult.mk p.1 p.2) := by
  induction l with
  | nil => rfl
  | cons p ps ih =>
    rw [List.filterMap_cons, List.map_cons]
    have hp : (p.1 == -1) = false :=
      beq_eq_false_iff_ne.mpr (h p (List.mem_cons_self p ps))
    rw [hp]
    rw [ih (fun q hq => h q (List.mem_cons_of_mem p hq))]
    rfl

theorem pairwise_take_map_sort (l : List (Int × ℚ)) (k : Nat) :
    (((List.insertionSort byScore l).take k).map
        (fun p => SearchResult.mk p.1 p.2)).Pairwise
      (fun a b => b.score ≤ a.score) := by
  apply List.pairwise_map.mpr
  apply List.Pairwise.sublist (List.take_sublist k _)
  exact List.sorted_insertionSort byScore l

theorem faiss_scored_nonneg (stored : List (List ℚ)) (q : List ℚ) :
    ∀ p ∈ List.insertionSort byScore
      (stored.enum.map (fun p => ((p.1 : Int), dot q p.2))), p.1 ≠ -1 := by
  intro p hp
  have hmem : p ∈ stored.enum.map (fun p => ((p.1 : Int), dot q p.2)) :=
    (List.mem_insertionSort byScore).mp hp
  obtain ⟨pe, _, hpe⟩ := List.mem_map.mp hmem
  intro hcontra
  rw [← hpe] at hcontra
  have : (0 : Int) ≤ (pe.1 : Int) := Int.natCast_nonneg pe.1
  omega

/-- C8: a vector search over a store holding S vectors, asked for k > S
results, returns exactly S results with non-increasing scores, and the
search over an empty store returns the empty sequence for every k, never
an error. -/
theorem vector_search_bounds (stored : List (List ℚ)) (q : List ℚ) (k : Nat) :
    (stored.length < k →
      (search_by_vector stored q k).length = stored.length ∧
      (search_by_vector stored q k).Pairwise (fun a b => b.score ≤ a.score)) ∧
    (stored = [] → search_by_vector stored q k = []) := by
  have hlen : (List.insertionSort byScore
      (stored.enum.map (fun p => ((p.1 : Int), dot q p.2)))).length
        = stored.length := by
    rw [(List.perm_insertionSort byScore _).length_eq]
    simp
  have key : ∀ k', search_by_vector stored q k'
      = ((List.insertionSort byScore
          (stored.enum.map (fun p => ((p.1 : Int), dot q p.2)))).take k').filterMap
        (fun p => if p.1 == -1 then none else some (SearchResult.mk p.1 p.2)) := by
    intro k'
    unfold search_by_vector faissSearch
    rw [List.filterMap_append]
    have hrep : (List.replicate
        (k' - ((List.insertionSort byScore
          (stored.enum.map (fun p => ((p.1 : Int), dot q p.2)))).take k').length)
        ((-1 : Int), (0 : ℚ))).filterMap
        (fun p => if p.1 == -1 then none else some (SearchResult.mk p.1 p.2))
          = [] := by
      apply List.filterMap_replicate_of_none
      rfl
    rw [hrep, List.append_nil]
  constructor
  · intro hk
    have htake : (List.insertionSort byScore
        (stored.enum.map (fun p => ((p.1 : Int), dot q p.2)))).take k
          = List.insertionSort byScore
            (stored.enum.map (fun p => ((p.1 : Int), dot q p.2))) :=
      List.take_of_length_le (by omega)
    constructor
    · rw [key k, htake,
        filterMap_keep _ (faiss_scored_nonneg stored q), List.length_map, hlen]
    · rw [key k]
      have hsub : ∀ p ∈ (List.insertionSort byScore
          (stored.enum.map (fun p => ((p.1 : Int), dot q p.2)))).take k, p.1 ≠ -1 :=
        fun p hp => faiss_scored_nonneg stored q p (List.mem_of_mem_take hp)
      rw [filterMap_keep _ hsub]
      exact pairwise_take_map_sort _ k
  · intro hempty
    subst hempty
    rw [key k]
    simp

theorem vector_search_bounds_witness :
    (List.length ([[1, 0], [0, 1]] : List (List ℚ)) < 5 ∧
      (search_by_vector [[1, 0], [0, 1]] [1, 0] 5).length = 2 ∧
      (search_by_vector [[1, 0], [0, 1]] [1, 0] 5).Pairwise
        (fun a b => b.score ≤ a.score)) ∧
    search_by_vector ([] : List (List ℚ)) [1, 0] 5 = [] :=
  ⟨⟨by decide, (vector_search_bounds [[1, 0], [0, 1]] [1, 0] 5).1 (by decide)⟩,
   (vector_search_bounds [] [1, 0] 5).2 rfl⟩

/-- C9: persisting the vector store while it holds zero vectors (or before
any index exists) is a no-op: the whole state, in particular the on-disk
snapshot, is left unchanged. -/
theorem save_empty_noop (st : VectorStoreState)
    (h : st.index = none ∨ st.index = some []) :
    VectorStore.save st = st := by
  rcases h with h | h <;> simp [VectorStore.save, h]

theorem save_empty_noop_witness :
    VectorStore.save (VectorStoreState.mk (some []) 0 (some [[1, 2]]))
      = VectorStoreState.mk (some []) 0 (some [[1, 2]]) :=
  save_empty_noop (VectorStoreState.mk (some []) 0 (some [[1, 2]])) (Or.inr rfl)

/-- C5 counterexample: a lexical store that already holds a built index is
NOT left in an empty state by a build over the empty corpus — the early
return keeps the old index, and a subsequent search still returns its
results instead of the empty sequence. -/
theorem build_empty_counterexample :
    BM25Store.search
      (BM25Store.build_index (fun _ _ => []) []
        (BM25Store.State.mk (some (fun _ => [5])) [7] none)) "anything" 5
      = [SearchResult.mk 7 5] ∧
    BM25Store.search
      (BM25Store.build_index (fun _ _ => []) []
        (BM25Store.State.mk (some (fun _ => [5])) [7] none)) "anything" 5
      ≠ [] := by
  constructor
  · rfl
  · intro h
    cases h

/-- C5 (amended): building the lexical index from an empty corpus is an
early return that leaves the whole store state — previous index, fid
mapping and disk snapshot — unchanged; only on a store whose index was
never built does the subsequent search return the empty sequence for every
query and k. -/
theorem build_index_empty_noop
    (mk : List (List (List Char)) → List (List Char) → List ℚ)
    (st : BM25Store.State) :
    BM25Store.build_index mk [] st = st ∧
    ∀ (q : String) (k : Nat),
      BM25Store.search (BM25Store.build_index mk []
        (BM25Store.State.mk none [] none)) q k = [] := by
  constructor
  · rfl
  · intro q k
    rfl

/-- C7: the lexical search never returns a result with score ≤ 0 — all
returned scores are strictly positive — and search on an unbuilt index
returns the empty sequence rather than an error. -/
theorem bm25_search_positive (st : BM25Store.State) (q : String) (k : Nat) :
    (∀ r ∈ BM25Store.search st q k, 0 < r.score) ∧
    (st.index = none → BM25Store.search st q k = []) := by
  obtain ⟨oidx, fids, dsk⟩ := st
  cases oidx with
  | none =>
    refine ⟨?_, fun _ => rfl⟩
    intro r hr
    cases hr
  | some idx =>
    refine ⟨?_, fun h => nomatch h⟩
    intro r hr
    have hr' : r ∈ (BM25Store.topIndices (idx (tokenize q)) k).filterMap
        (fun p => if 0 < p.2 then
          some (SearchResult.mk (fids.getD p.1 0) p.2) else none) := hr
    obtain ⟨p, _, hpr⟩ := List.mem_filterMap.mp hr'
    by_cases hpos : 0 < p.2
    · rw [if_pos hpos] at hpr
      injection hpr with hh
      rw [← hh]
      exact hpos
    · rw [if_neg hpos] at hpr
      cases hpr

theorem bm25_search_positive_witness :
    SearchResult.mk 10 3 ∈ BM25Store.search
      (BM25Store.State.mk (some (fun _ => [3, 0])) [10, 11] none) "x" 5 ∧
    0 < (SearchResult.mk 10 3).score ∧
    BM25Store.search (BM25Store.State.mk none [] none) "x" 5 = [] :=
  ⟨by decide,
   (bm25_search_positive (BM25Store.State.mk (some (fun _ => [3, 0]))
      [10, 11] none) "x" 5).1 (SearchResult.mk 10 3) (by decide),
   (bm25_search_positive (BM25Store.State.mk none [] none) "x" 5).2 rfl⟩

theorem keywords_length (query : String) (kw : List Char)
    (h : kw ∈ keywords query) : 2 < kw.length := by
  unfold keywords at h
  obtain ⟨w, hw, hwk⟩ := List.mem_map.mp h
  obtain ⟨_, hlen⟩ := List.mem_filter.mp hw
  rw [← hwk, List.length_map]
  simpa using hlen

/-- C10: a fid of the fused candidate set for which the metadata title
lookup has no entry falls back to the empty title and is never boosted:
its (fid, score) entry passes through the boosting step unchanged. -/
theorem missing_title_unboosted (query : String) (tm : List (Int × String))
    (scores : List (Int × ℚ)) (fid : Int) (s : ℚ)
    (hmem : (fid, s) ∈ scores)
    (hno : tm.find? (fun p => p.1 == fid) = none) :
    (fid, s) ∈ titleBoost query tm scores := by
  unfold titleBoost
  have hne : ¬(scores.isEmpty = true) := by
    cases scores with
    | nil => cases hmem
    | cons a as => simp
  rw [if_neg hne]
  have hcond : boostCond query tm (scores.map Prod.fst) fid = false := by
    unfold boostCond
    apply List.any_eq_false.mpr
    intro kw hkw
    have hlook : titleLookup (get_chunk_titles (scores.map Prod.fst) tm) fid
        = "" := by
      unfold titleLookup get_chunk_titles
      have hfind : (tm.filter
          (fun p => (scores.map Prod.fst).contains p.1)).find?
            (fun p => p.1 == fid) = none := by
        apply List.find?_eq_none.mpr
        intro x hx
        exact List.find?_eq_none.mp hno x ((List.mem_filter.mp hx).1)
      rw [hfind]
      rfl
    rw [hlook]
    have hkwlen : 2 < kw.length := keywords_length query kw hkw
    cases kw with
    | nil => simp at hkwlen
    | cons c cs => simp [containsSub]
  refine List.mem_map.mpr ⟨(fid, s), hmem, ?_⟩
  simp [hcond]

theorem missing_title_unboosted_witness :
    ((0 : Int), (5 : ℚ)) ∈ [((0 : Int), (5 : ℚ))] ∧
    ([((1 : Int), "other")].find? (fun p => p.1 == (0 : Int)) = none) ∧
    ((0 : Int), (5 : ℚ)) ∈ titleBoost "path utils" [((1 : Int), "other")]
      [((0 : Int), (5 : ℚ))] :=
  ⟨by decide, rfl,
   missing_title_unboosted "path utils" [((1 : Int), "other")]
     [((0 : Int), (5 : ℚ))] 0 5 (by decide) rfl⟩

/-! Positivity of every fused score (needed for the strict-increase part of
the boosting claim). -/

theorem dictGet_mem (d : List (Int × ℚ)) (f : Int) (x : ℚ)
    (h : dictGet d f = some x) : ∃ p ∈ d, p.2 = x := by
  unfold dictGet at h
  cases hf : d.find? (fun p => p.1 == f) with
  | none => rw [hf] at h; cases h
  | some p =>
    rw [hf] at h
    injection h with hh
    exact ⟨p, List.mem_of_find?_eq_some hf, hh⟩

theorem mem_dictSet (d : List (Int × ℚ)) (f : Int) (v : ℚ) (q : Int × ℚ)
    (h : q ∈ dictSet d f v) : q = (f, v) ∨ q ∈ d := by
  unfold dictSet at h
  by_cases hany : (d.any (fun p => p.1 == f)) = true
  · rw [if_pos hany] at h
    obtain ⟨p, hp, hq⟩ := List.mem_map.mp h
    by_cases hpf : (p.1 == f) = true
    · rw [if_pos hpf] at hq
      left
      exact hq.symm
    · rw [if_neg hpf] at hq
      right
      rw [← hq]
      exact hp
  · rw [if_neg hany] at h
    rcases List.mem_append.mp h with h | h
    · right; exact h
    · left; simpa using h

theorem rrfFold_pos (l : List SearchResult) :
    ∀ (d : List (Int × ℚ)), (∀ p ∈ d, 0 < p.2) →
      ∀ s, ∀ p ∈ rrfFold d l s, 0 < p.2 := by
  induction l with
  | nil => intro d hd _ p hp; exact hd p hp
  | cons x xs ih =>
    intro d hd s p hp
    rw [rrfFold] at hp
    refine ih (rrfAdd d s x.faiss_id) ?_ (s + 1) p hp
    intro q hq
    unfold rrfAdd at hq
    rcases mem_dictSet _ _ _ q hq with hq' | hq'
    · rw [hq']
      have h0 : 0 ≤ (dictGet d x.faiss_id).getD 0 := by
        cases hg : dictGet d x.faiss_id with
        | none => simp
        | some y =>
          obtain ⟨p', hp', hy⟩ := dictGet_mem d x.faiss_id y hg
          simp only [Option.getD_some]
          exact le_of_lt (hy ▸ hd p' hp')
      have h1 : (0 : ℚ) < 1 / (60 + (s : ℚ)) := by positivity
      show 0 < (dictGet d x.faiss_id).getD 0 + 1 / (60 + (s : ℚ))
      linarith
    · exact hd q hq'

theorem rrfScores_pos (v b : List SearchResult) :
    ∀ p ∈ rrfScores v b, 0 < p.2 := by
  unfold rrfScores
  exact rrfFold_pos b (rrfFold [] v 1)
    (rrfFold_pos v [] (fun p hp => absurd hp (List.not_mem_nil p)) 1) 1

theorem except_ok_bind {α β : Type} (a : α) (f : α → Except String β) :
    (Except.ok a : Except String α).bind f = f a := rfl

theorem except_error_bind {α β : Type} (e : String) (f : α → Except String β) :
    (Except.error e : Except String α).bind f = Except.error e := rfl

/-- C1: calling the retrieval entry point with an unrecognized mode string
does NOT degrade gracefully to the hybrid path: the embedding step is
skipped (it only runs for the modes vector and hybrid), so the fallthrough
hybrid branch hands a missing query vector to the vector search and the
call raises, while the same collaborators under the mode string hybrid
succeed. This contradicts the claimed graceful degradation (and the
repository's own test_invalid_search_mode). -/
theorem unrecognized_mode_raises :
    hybrid_search (fun _ => .ok [1]) (vsearchReal [[1]])
      (fun _ _ => .ok [SearchResult.mk 0 1]) [] 7 9 "test" 5 "invalid_mode"
      = .error "AttributeError: NoneType object has no attribute ndim" ∧
    hybrid_search (fun _ => .ok [1]) (vsearchReal [[1]])
      (fun _ _ => .ok [SearchResult.mk 0 1]) [] 7 9 "test" 5 "hybrid"
      = .ok (HybridOutput.mk [SearchResult.mk 0 (2 / 61)] 7 9) := by
  refine ⟨rfl, ?_⟩
  have step0 : hybrid_search (fun _ => .ok [1]) (vsearchReal [[1]])
      (fun _ _ => .ok [SearchResult.mk 0 1]) [] 7 9 "test" 5 "hybrid"
      = .ok (HybridOutput.mk (hybridFuse "test" []
          (search_by_vector [[1]] [1] 50) [SearchResult.mk 0 1] 5) 7 9) := rfl
  have hdot : dot [1] [1] = 1 := by norm_num [dot]
  have hv : search_by_vector [[1]] [1] 50 = [SearchResult.mk 0 1] := by
    have h0 : search_by_vector [[1]] [1] 50
        = [SearchResult.mk 0 (dot [1] [1])] := rfl
    rw [h0, hdot]
  have hsc : rrfScores [SearchResult.mk 0 1] [SearchResult.mk 0 1]
      = [((0 : Int), (2 / 61 : ℚ))] := by
    norm_num [rrfScores, rrfFold, rrfAdd, dictSet, dictGet]
  have hboost : ∀ x : ℚ, titleBoost "test" [] [((0 : Int), x)]
      = [((0 : Int), x)] := fun _ => rfl
  rw [step0, hv]
  unfold hybridFuse
  rw [hsc, hboost]
  rfl

/-- C2: in the lexical mode (mode string bm25) no embedding happens — the
outcome is independent of the embedding collaborator, of the vector
search and of the measured embedding duration — the reported embedding
time is 0, and the results are exactly those of the lexical search for k. -/
theorem bm25_mode_no_embedding
    (embed1 embed2 : String → Except String (List ℚ))
    (vs1 vs2 : Option (List ℚ) → Nat → Except String (List SearchResult))
    (bsearch : String → Nat → Except String (List SearchResult))
    (tm : List (Int × String)) (tE1 tE2 tR : Nat) (query : String) (k : Nat)
    (r : List SearchResult) (_hk : 0 < k) (hb : bsearch query k = .ok r) :
    hybrid_search embed1 vs1 bsearch tm tE1 tR query k "bm25"
      = .ok (HybridOutput.mk r 0 tR) ∧
    hybrid_search embed1 vs1 bsearch tm tE1 tR query k "bm25"
      = hybrid_search embed2 vs2 bsearch tm tE2 tR query k "bm25" := by
  have key : ∀ (e : String → Except String (List ℚ))
      (vs : Option (List ℚ) → Nat → Except String (List SearchResult))
      (tE : Nat),
      hybrid_search e vs bsearch tm tE tR query k "bm25"
        = (bsearch query k).bind
            (fun rr => .ok (HybridOutput.mk rr 0 tR)) :=
    fun _ _ _ => rfl
  refine ⟨?_, by rw [key, key]⟩
  rw [key, hb, except_ok_bind]

theorem bm25_mode_no_embedding_witness :
    (0 : Nat) < 2 ∧
    ((fun (_ : String) (_ : Nat) =>
        (Except.ok [SearchResult.mk 3 5] : Except String (List SearchResult)))
      "q" 2 = .ok [SearchResult.mk 3 5]) ∧
    hybrid_search (fun _ => .error "embedder down") (fun _ _ => .error "vs down")
      (fun _ _ => .ok [SearchResult.mk 3 5]) [] 7 9 "q" 2 "bm25"
      = .ok (HybridOutput.mk [SearchResult.mk 3 5] 0 9) ∧
    hybrid_search (fun _ => .error "embedder down") (fun _ _ => .error "vs down")
      (fun _ _ => .ok [SearchResult.mk 3 5]) [] 7 9 "q" 2 "bm25"
      = hybrid_search (fun _ => .ok [1]) (fun _ _ => .ok [])
          (fun _ _ => .ok [SearchResult.mk 3 5]) [] 8 9 "q" 2 "bm25" :=
  ⟨by decide, rfl,
   (bm25_mode_no_embedding (fun _ => .error "embedder down") (fun _ => .ok [1])
      (fun _ _ => .error "vs down") (fun _ _ => .ok [])
      (fun _ _ => .ok [SearchResult.mk 3 5]) [] 7 8 9 "q" 2
      [SearchResult.mk 3 5] (by decide) rfl).1,
   (bm25_mode_no_embedding (fun _ => .error "embedder down") (fun _ => .ok [1])
      (fun _ _ => .error "vs down") (fun _ _ => .ok [])
      (fun _ _ => .ok [SearchResult.mk 3 5]) [] 7 8 9 "q" 2
      [SearchResult.mk 3 5] (by decide) rfl).2⟩

/-- C3 counterexample: in hybrid mode with a healthy vector path and a
failing lexical path the call returns the lexical path's error — it
neither degrades to vector-only results nor returns an empty result set. -/
theorem hybrid_no_degradation_counterexample :
    hybrid_search (fun _ => .ok [1]) (fun _ _ => .ok [SearchResult.mk 0 1])
      (fun _ _ => .error "bm25 index unavailable") [] 7 9 "q" 5 "hybrid"
      = .error "bm25 index unavailable" := rfl

/-- C3 (amended): the hybrid path wraps no collaborator in a handler, so an
error raised by the embedder, the vector search or the lexical search
propagates unchanged and fails the whole query; there is no partial-failure
degradation and no IndexUnavailable fallback. -/
theorem hybrid_error_propagates
    (embed : String → Except String (List ℚ))
    (vsearch : Option (List ℚ) → Nat → Except String (List SearchResult))
    (bsearch : String → Nat → Except String (List SearchResult))
    (tm : List (Int × String)) (tE tR : Nat) (query : String) (k : Nat)
    (e : String) :
    (embed query = .error e →
      hybrid_search embed vsearch bsearch tm tE tR query k "hybrid"
        = .error e) ∧
    (∀ w, embed query = .ok w → vsearch (some w) (k * 10) = .error e →
      hybrid_search embed vsearch bsearch tm tE tR query k "hybrid"
        = .error e) ∧
    (∀ w rv, embed query = .ok w → vsearch (some w) (k * 10) = .ok rv →
      bsearch query (k * 10) = .error e →
      hybrid_search embed vsearch bsearch tm tE tR query k "hybrid"
        = .error e) := by
  have key : hybrid_search embed vsearch bsearch tm tE tR query k "hybrid"
      = (embed query).bind (fun w => (vsearch (some w) (k * 10)).bind
          (fun rv => (bsearch query (k * 10)).bind
            (fun rb => .ok (HybridOutput.mk
              (hybridFuse query tm rv rb k) tE tR)))) := rfl
  refine ⟨?_, ?_, ?_⟩
  · intro he
    rw [key, he, except_error_bind]
  · intro w he hv
    rw [key, he, except_ok_bind, hv, except_error_bind]
  · intro w rv he hv hbq
    rw [key, he, except_ok_bind, hv, except_ok_bind, hbq, except_error_bind]

theorem hybrid_error_propagates_witness :
    ((fun (_ : String) => (Except.ok [1] : Except String (List ℚ))) "q"
      = .ok [1]) ∧
    ((fun (_ : Option (List ℚ)) (_ : Nat) =>
        (Except.ok [SearchResult.mk 0 1] : Except String (List SearchResult)))
      (some [1]) 50 = .ok [SearchResult.mk 0 1]) ∧
    ((fun (_ : String) (_ : Nat) =>
        (Except.error "bm25 down" : Except String (List SearchResult)))
      "q" 50 = .error "bm25 down") ∧
    hybrid_search (fun _ => .ok [1]) (fun _ _ => .ok [SearchResult.mk 0 1])
      (fun _ _ => .error "bm25 down") [] 7 9 "q" 5 "hybrid"
      = .error "bm25 down" :=
  ⟨rfl, rfl, rfl,
   (hybrid_error_propagates (fun _ => .ok [1])
      (fun _ _ => .ok [SearchResult.mk 0 1])
      (fun _ _ => .error "bm25 down") [] 7 9 "q" 5 "bm25 down").2.2
     [1] [SearchResult.mk 0 1] rfl rfl rfl⟩

/-- C4 counterexample: the source extracts keywords as maximal runs of
word characters, not as whitespace-delimited tokens. For the query os.path
the only whitespace-delimited token of length > 2 is os.path, which does
not occur in the title path utilities — so under the claimed extraction no
boost would apply — yet the source boosts the fid's fused score 2/61 by
exactly 3, because the run path of length 4 does occur in the title. -/
theorem title_boost_keyword_counterexample :
    hybrid_search (fun _ => .ok [1]) (vsearchReal [[1]])
      (fun _ _ => .ok [SearchResult.mk 0 1])
      [((0 : Int), "path utilities")] 7 9 "os.path" 5 "hybrid"
      = .ok (HybridOutput.mk [SearchResult.mk 0 ((2 / 61) * 3)] 7 9) ∧
    (keywordsSpec "os.path").any
      (fun kw => containsSub kw ("path utilities".data.map Char.toLower))
      = false := by
  refine ⟨?_, rfl⟩
  have step0 : hybrid_search (fun _ => .ok [1]) (vsearchReal [[1]])
      (fun _ _ => .ok [SearchResult.mk 0 1]) [((0 : Int), "path utilities")]
      7 9 "os.path" 5 "hybrid"
      = .ok (HybridOutput.mk (hybridFuse "os.path" [((0 : Int), "path utilities")]
          (search_by_vector [[1]] [1] 50) [SearchResult.mk 0 1] 5) 7 9) := rfl
  have hdot : dot [1] [1] = 1 := by norm_num [dot]
  have hv : search_by_vector [[1]] [1] 50 = [SearchResult.mk 0 1] := by
    have h0 : search_by_vector [[1]] [1] 50
        = [SearchResult.mk 0 (dot [1] [1])] := rfl
    rw [h0, hdot]
  have hsc : rrfScores [SearchResult.mk 0 1] [SearchResult.mk 0 1]
      = [((0 : Int), (2 / 61 : ℚ))] := by
    norm_num [rrfScores, rrfFold, rrfAdd, dictSet, dictGet]
  have hboost : ∀ x : ℚ, titleBoost "os.path" [((0 : Int), "path utilities")]
      [((0 : Int), x)] = [((0 : Int), x * 3)] := fun _ => rfl
  rw [step0, hv]
  unfold hybridFuse
  rw [hsc, hboost]
  rfl

/-- C4 (amended): with keywords extracted as the source does — maximal
word-character runs of the query of length > 2, lowercased — the boosting
step multiplies by exactly 3 the fused score of every fid whose fetched,
lowercased title contains some keyword and keeps every other fused score
unchanged; each boost strictly increases the score (fused scores are
strictly positive); and the final hybrid ranking is sorted by
non-increasing score. -/
theorem title_boost_amended (query : String) (tm : List (Int × String))
    (v b : List SearchResult) (top_k : Nat) (fid : Int) (s : ℚ)
    (hmem : (fid, s) ∈ rrfScores v b) :
    ((fid, if boostCond query tm ((rrfScores v b).map Prod.fst) fid
        then s * 3 else s) ∈ titleBoost query tm (rrfScores v b)) ∧
    (boostCond query tm ((rrfScores v b).map Prod.fst) fid = true →
      s < s * 3) ∧
    (hybridFuse query tm v b top_k).Pairwise
      (fun a c => c.score ≤ a.score) := by
  refine ⟨?_, ?_, ?_⟩
  · unfold titleBoost
    have hne : ¬((rrfScores v b).isEmpty = true) := by
      cases hsc : rrfScores v b with
      | nil => rw [hsc] at hmem; cases hmem
      | cons p ps => simp
    rw [if_neg hne]
    refine List.mem_map.mpr ⟨(fid, s), hmem, ?_⟩
    by_cases hbc : boostCond query tm ((rrfScores v b).map Prod.fst) fid = true
    · simp [hbc]
    · simp [hbc]
  · intro _
    have hpos : 0 < s := rrfScores_pos v b (fid, s) hmem
    linarith
  · unfold hybridFuse
    exact pairwise_take_map_sort _ top_k

theorem title_boost_amended_witness :
    ((0 : Int), (2 / 61 : ℚ)) ∈ rrfScores [SearchResult.mk 0 1]
      [SearchResult.mk 0 1] ∧
    boostCond "path docs" [((0 : Int), "Path Utilities")]
      ((rrfScores [SearchResult.mk 0 1] [SearchResult.mk 0 1]).map Prod.fst) 0
      = true ∧
    (((0 : Int), (2 / 61 : ℚ) * 3) ∈ titleBoost "path docs"
      [((0 : Int), "Path Utilities")]
      (rrfScores [SearchResult.mk 0 1] [SearchResult.mk 0 1])) ∧
    ((2 / 61 : ℚ) < (2 / 61 : ℚ) * 3) ∧
    (hybridFuse "path docs" [((0 : Int), "Path Utilities")]
      [SearchResult.mk 0 1] [SearchResult.mk 0 1] 5).Pairwise
      (fun a c => c.score ≤ a.score) := by
  have hsc : rrfScores [SearchResult.mk 0 1] [SearchResult.mk 0 1]
      = [((0 : Int), (2 / 61 : ℚ))] := by
    norm_num [rrfScores, rrfFold, rrfAdd, dictSet, dictGet]
  have hmem : ((0 : Int), (2 / 61 : ℚ)) ∈ rrfScores [SearchResult.mk 0 1]
      [SearchResult.mk 0 1] := by
    rw [hsc]
    exact List.mem_singleton.mpr rfl
  have hbc : boostCond "path docs" [((0 : Int), "Path Utilities")]
      ((rrfScores [SearchResult.mk 0 1] [SearchResult.mk 0 1]).map Prod.fst) 0
      = true := by
    rw [hsc]
    rfl
  have h := title_boost_amended "path docs" [((0 : Int), "Path Utilities")]
    [SearchResult.mk 0 1] [SearchResult.mk 0 1] 5 0 (2 / 61) hmem
  refine ⟨hmem, hbc, ?_, h.2.1 hbc, h.2.2⟩
  have h1 := h.1
  rw [if_pos hbc] at h1
  exact h1
